import Mathlib

/-!
# Verification of the Wordle game engine (backend `GameService`)

Shallow embedding of `src/backend/src/services/gameService.ts` (bundled in
`src/backend/src/controllers/gameController.ts` after the module separator).
Words are `List Char`; JS strings are lists of characters, and the
dictionary, answers and guesses are all words.  The mutable `games` map is
modelled as an association list threaded through the operations, and
functions that `throw` in TypeScript return `Except GameError` /
`Option` here.
-/

/-- Model of `LetterState` from `types/game.ts`: `"hit" | "present" | "miss" | "empty"`.
(`empty` is the pass-1 placeholder; the spec calls it `Pending`.) -/
inductive LetterState where
  | hit
  | present
  | miss
  | empty
deriving DecidableEq, Repr

/-- Model of `Letter` from `types/game.ts`: `{ char, state }`. -/
structure Letter where
  char : Char
  state : LetterState
deriving DecidableEq, Repr

/-- Model of `Guess = Letter[]`. -/
abbrev Guess := List Letter

/-- The running letter-count map of `scoreGuess` (`answerLetterCount`).
JS numbers are modelled as integers; a key absent from the JS object reads
as count `0` here, which agrees with the code's `(x || 0)` initialisation
and its `> 0` test (`undefined > 0` is false in JS, as is `0 > 0`). -/
abbrev Counts := Char → Int

/-- Model of the decrement `answerLetterCount[letter]--`. -/
def decr (cnt : Counts) (c : Char) : Counts :=
  fun d => if d = c then cnt d - 1 else cnt d

/-- The initial `answerLetterCount`: frequency of each letter in the answer. -/
def initialCounts (answerArray : List Char) : Counts :=
  fun c => (answerArray.count c : Int)

/-- First pass of `scoreGuess` over the position-wise pairs
`(guess[i], answer[i])`: mark exact matches `hit` (decrementing the count),
everything else `empty`. -/
def pass1 : List (Char × Char) → Counts → Guess × Counts
  | [], cnt => ([], cnt)
  | (g, a) :: rest, cnt =>
    if g = a then
      let r := pass1 rest (decr cnt g)
      (⟨g, .hit⟩ :: r.1, r.2)
    else
      let r := pass1 rest cnt
      (⟨g, .empty⟩ :: r.1, r.2)

/-- Second pass of `scoreGuess`: rewrite each `empty` slot to `present`
(if the letter's remaining count is positive, decrementing it) or `miss`. -/
def pass2 : Guess → Counts → Guess
  | [], _ => []
  | l :: rest, cnt =>
    if l.state = .empty then
      if 0 < cnt l.char then
        ⟨l.char, .present⟩ :: pass2 rest (decr cnt l.char)
      else
        ⟨l.char, .miss⟩ :: pass2 rest cnt
    else
      l :: pass2 rest cnt

/-- Model of `GameService.scoreGuess(guess, answer)`: upper-case both words, count the
answer's letters, then run the two passes.  The TypeScript loops index the
two arrays in lock-step, which for the equal-length words the service feeds
in is exactly `zip`. -/
def scoreGuess (guess answer : List Char) : Guess :=
  let guessArray := guess.map Char.toUpper
  let answerArray := answer.map Char.toUpper
  let p := pass1 (guessArray.zip answerArray) (initialCounts answerArray)
  pass2 p.1 p.2

/-- Model of `GameService.scorePattern(pattern)`: 6 per `hit`, 1 per `present`,
0 per `miss`, accumulated left to right. -/
def scorePattern (pattern : Guess) : Nat :=
  pattern.foldl
    (fun score l =>
      if l.state = .hit then score + 6
      else if l.state = .present then score + 1
      else score) 0

/-- Occurrences of character `c` with verdict `s` in a scored guess. -/
def countState (c : Char) (s : LetterState) (p : Guess) : Nat :=
  p.countP (fun l => decide (l.char = c ∧ l.state = s))

/-- Occurrences of verdict `s` in a scored guess (any character). -/
def countVerdict (s : LetterState) (p : Guess) : Nat :=
  p.countP (fun l => decide (l.state = s))

example : scoreGuess ['L','L','A','M','A'] ['A','L','L','O','Y'] =
    [⟨'L', .present⟩, ⟨'L', .hit⟩, ⟨'A', .present⟩, ⟨'M', .miss⟩, ⟨'A', .miss⟩] := by
  decide

example : scoreGuess ['a','b'] ['A','B'] = [⟨'A', .hit⟩, ⟨'B', .hit⟩] := by decide

example : scorePattern [⟨'L', .present⟩, ⟨'L', .hit⟩, ⟨'A', .present⟩, ⟨'M', .miss⟩] = 8 := by
  decide

/-! ## Scorer lemmas -/

theorem pass1_chars (ps : List (Char × Char)) (cnt : Counts) :
    (pass1 ps cnt).1.map (fun l => l.char) = ps.map (fun p => p.1) := by
  induction ps generalizing cnt with
  | nil => simp [pass1]
  | cons p rest ih =>
    obtain ⟨g, a⟩ := p
    by_cases h : g = a <;> simp [pass1, h, ih]

theorem pass1_states (ps : List (Char × Char)) (cnt : Counts) :
    ∀ l ∈ (pass1 ps cnt).1, l.state = .hit ∨ l.state = .empty := by
  induction ps generalizing cnt with
  | nil => simp [pass1]
  | cons p rest ih =>
    obtain ⟨g, a⟩ := p
    by_cases h : g = a <;> simp [pass1, h] <;> intro l hl <;> exact ih _ l hl

theorem pass2_chars (res : Guess) (cnt : Counts) :
    (pass2 res cnt).map (fun l => l.char) = res.map (fun l => l.char) := by
  induction res generalizing cnt with
  | nil => simp [pass2]
  | cons l rest ih =>
    by_cases h : l.state = .empty
    · by_cases h2 : 0 < cnt l.char <;> simp [pass2, h, h2, ih]
    · simp [pass2, h, ih]
theorem countState_cons (c : Char) (s : LetterState) (l : Letter) (rest : Guess) :
    countState c s (l :: rest) =
      countState c s rest + (if l.char = c ∧ l.state = s then 1 else 0) := by
  simp [countState, List.countP_cons]

theorem pass2_not_empty (res : Guess) (cnt : Counts) :
    ∀ l ∈ pass2 res cnt, l.state ≠ .empty := by
  induction res generalizing cnt with
  | nil => simp [pass2]
  | cons l rest ih =>
    intro x hx
    simp only [pass2] at hx
    by_cases h : l.state = .empty
    · rw [if_pos h] at hx
      by_cases h2 : 0 < cnt l.char
      · rw [if_pos h2] at hx
        rcases List.mem_cons.mp hx with rfl | hx'
        · simp
        · exact ih _ x hx'
      · rw [if_neg h2] at hx
        rcases List.mem_cons.mp hx with rfl | hx'
        · simp
        · exact ih _ x hx'
    · rw [if_neg h] at hx
      rcases List.mem_cons.mp hx with rfl | hx'
      · exact h
      · exact ih _ x hx'

theorem pass1_counts (ps : List (Char × Char)) (cnt : Counts) (c : Char) :
    (pass1 ps cnt).2 c = cnt c - countState c .hit (pass1 ps cnt).1 := by
  induction ps generalizing cnt with
  | nil => simp [pass1, countState]
  | cons p rest ih =>
    obtain ⟨g, a⟩ := p
    simp only [pass1]
    by_cases h : g = a
    · rw [if_pos h]
      subst h
      dsimp only
      rw [countState_cons, ih]
      by_cases hc : g = c
      · subst hc
        simp [decr]
        ring
      · have hd : decr cnt g c = cnt c := by
          simp only [decr]
          rw [if_neg (fun e : c = g => hc e.symm)]
        rw [hd]
        simp [hc]
    · rw [if_neg h]
      dsimp only
      rw [countState_cons, ih]
      simp

theorem pass1_hits_le (ps : List (Char × Char)) (cnt : Counts) (c : Char) :
    countState c .hit (pass1 ps cnt).1 ≤ ps.countP (fun p => decide (p.2 = c)) := by
  induction ps generalizing cnt with
  | nil => simp [pass1, countState]
  | cons p rest ih =>
    obtain ⟨g, a⟩ := p
    simp only [pass1, List.countP_cons]
    by_cases h : g = a
    · rw [if_pos h]
      subst h
      dsimp only
      rw [countState_cons]
      have hih := ih (decr cnt g)
      by_cases hc : g = c
      · subst hc
        simp
        omega
      · simp [hc]
        omega
    · rw [if_neg h]
      dsimp only
      rw [countState_cons]
      have hih := ih cnt
      by_cases hc : a = c <;> simp [hc] <;> omega

theorem pass1_no_present (ps : List (Char × Char)) (cnt : Counts) (c : Char) :
    countState c .present (pass1 ps cnt).1 = 0 := by
  rw [countState, List.countP_eq_zero]
  intro l hl
  rcases pass1_states ps cnt l hl with h | h <;> simp [h]

theorem pass2_hits (res : Guess) (cnt : Counts) (c : Char) :
    countState c .hit (pass2 res cnt) = countState c .hit res := by
  induction res generalizing cnt with
  | nil => simp [pass2]
  | cons l rest ih =>
    simp only [pass2]
    by_cases h : l.state = .empty
    · rw [if_pos h]
      by_cases h2 : 0 < cnt l.char
      · rw [if_pos h2]
        rw [countState_cons, countState_cons, ih]
        simp [h]
      · rw [if_neg h2]
        rw [countState_cons, countState_cons, ih]
        simp [h]
    · rw [if_neg h]
      rw [countState_cons, countState_cons, ih]

theorem pass2_presents_le (res : Guess) (cnt : Counts) (c : Char) (h0 : 0 ≤ cnt c) :
    (countState c .present (pass2 res cnt) : Int) ≤
      cnt c + countState c .present res := by
  induction res generalizing cnt with
  | nil => simpa [pass2, countState] using h0
  | cons l rest ih =>
    simp only [pass2]
    by_cases h : l.state = .empty
    · rw [if_pos h]
      by_cases h2 : 0 < cnt l.char
      · rw [if_pos h2]
        by_cases hc : l.char = c
        · subst hc
          have hd2 : decr cnt l.char l.char = cnt l.char - 1 := by
            simp [decr]
          have hd : (0 : Int) ≤ decr cnt l.char l.char := by
            rw [hd2]
            omega
          have hih := ih (decr cnt l.char) hd
          rw [hd2] at hih
          rw [countState_cons, countState_cons]
          simp [h]
          omega
        · have hd : decr cnt l.char c = cnt c := by
            simp only [decr]
            rw [if_neg (fun e : c = l.char => hc e.symm)]
          have hih := ih (decr cnt l.char) (hd ▸ h0)
          rw [hd] at hih
          rw [countState_cons, countState_cons]
          simp [h, hc]
          omega
      · rw [if_neg h2]
        have hih := ih cnt h0
        rw [countState_cons, countState_cons]
        simp [h]
        omega
    · rw [if_neg h]
      have hih := ih cnt h0
      rw [countState_cons, countState_cons]
      by_cases hc : l.char = c ∧ l.state = .present
      · simp only [hc, and_self, if_pos]
        push_cast
        omega
      · simp [hc]
        omega

theorem countP_eq_count (l : List Char) (c : Char) :
    l.countP (fun d => decide (d = c)) = l.count c := by
  induction l with
  | nil => rfl
  | cons d rest ih =>
    rw [List.countP_cons, List.count_cons, ih]
    by_cases h : d = c <;> simp [h]

theorem countState_hit_present_le (c : Char) (p : Guess) :
    countState c .hit p + countState c .present p ≤
      p.countP (fun l => decide (l.char = c)) := by
  induction p with
  | nil => simp [countState]
  | cons l rest ih =>
    rw [countState_cons, countState_cons, List.countP_cons]
    by_cases hc : l.char = c
    · cases hs : l.state <;> simp [hc, hs] <;> omega
    · simp [hc]
      omega

/-- Claim C1. Letter-count conservation of the Scorer: for words already in
upper case (the service normalizes every guess and answer to upper case
before scoring) and of equal length, for every letter `c` the number of
`hit` marks with character `c` plus the number of `present` marks with
character `c` is at most the minimum of the occurrences of `c` in the guess
and in the answer. -/
theorem scoreGuess_letter_conservation (guess answer : List Char)
    (hg : guess.map Char.toUpper = guess) (ha : answer.map Char.toUpper = answer)
    (hlen : guess.length = answer.length) (c : Char) :
    countState c .hit (scoreGuess guess answer) +
      countState c .present (scoreGuess guess answer) ≤
      min (guess.count c) (answer.count c) := by
  have hfin : scoreGuess guess answer =
      pass2 (pass1 (guess.zip answer) (initialCounts answer)).1
            (pass1 (guess.zip answer) (initialCounts answer)).2 := by
    rw [scoreGuess, hg, ha]
  rw [hfin]
  have hfst : (guess.zip answer).map Prod.fst = guess :=
    List.map_fst_zip _ _ (le_of_eq hlen)
  have hsnd : (guess.zip answer).map Prod.snd = answer :=
    List.map_snd_zip _ _ (le_of_eq hlen.symm)
  apply le_min
  · -- the guess-side bound: every non-miss mark sits at a position of the guess
    refine le_trans (countState_hit_present_le c _) ?_
    have hchars :
        (pass2 (pass1 (guess.zip answer) (initialCounts answer)).1
               (pass1 (guess.zip answer) (initialCounts answer)).2).map
          (fun l => l.char) = guess := by
      rw [pass2_chars, pass1_chars]
      exact hfst
    have hcomp :
        (pass2 (pass1 (guess.zip answer) (initialCounts answer)).1
               (pass1 (guess.zip answer) (initialCounts answer)).2).countP
            (fun l => decide (l.char = c)) =
          List.countP ((fun d => decide (d = c)) ∘ fun l : Letter => l.char)
            (pass2 (pass1 (guess.zip answer) (initialCounts answer)).1
                   (pass1 (guess.zip answer) (initialCounts answer)).2) := rfl
    rw [hcomp, ← List.countP_map, hchars, countP_eq_count]
  · -- the answer-side bound via the running letter counts
    have hhit :
        countState c .hit
            (pass2 (pass1 (guess.zip answer) (initialCounts answer)).1
                   (pass1 (guess.zip answer) (initialCounts answer)).2) =
          countState c .hit (pass1 (guess.zip answer) (initialCounts answer)).1 :=
      pass2_hits _ _ _
    have hps : (guess.zip answer).countP (fun p => decide (p.2 = c)) =
        answer.count c := by
      have hcomp2 : (guess.zip answer).countP (fun p => decide (p.2 = c)) =
          List.countP ((fun d => decide (d = c)) ∘ (Prod.snd : Char × Char → Char))
            (guess.zip answer) := rfl
      rw [hcomp2, ← List.countP_map, hsnd, countP_eq_count]
    have hH_le :
        countState c .hit (pass1 (guess.zip answer) (initialCounts answer)).1 ≤
          answer.count c := by
      have h := pass1_hits_le (guess.zip answer) (initialCounts answer) c
      rwa [hps] at h
    have hcnt :
        (pass1 (guess.zip answer) (initialCounts answer)).2 c =
          (answer.count c : Int) -
            countState c .hit (pass1 (guess.zip answer) (initialCounts answer)).1 := by
      rw [pass1_counts]
      rfl
    have h0 : (0 : Int) ≤ (pass1 (guess.zip answer) (initialCounts answer)).2 c := by
      rw [hcnt]
      have : (countState c .hit (pass1 (guess.zip answer) (initialCounts answer)).1 : Int) ≤
          (answer.count c : Int) := by exact_mod_cast hH_le
      omega
    have hpres := pass2_presents_le
      (pass1 (guess.zip answer) (initialCounts answer)).1
      (pass1 (guess.zip answer) (initialCounts answer)).2 c h0
    rw [pass1_no_present, hcnt] at hpres
    rw [hhit]
    omega

/-- Witness for C1 at the spec's own fixture `LLAMA` vs `ALLOY`, letter `L`. -/
theorem scoreGuess_letter_conservation_witness :
    countState 'L' .hit (scoreGuess ['L','L','A','M','A'] ['A','L','L','O','Y']) +
      countState 'L' .present (scoreGuess ['L','L','A','M','A'] ['A','L','L','O','Y']) ≤
      min ((['L','L','A','M','A'] : List Char).count 'L')
          ((['A','L','L','O','Y'] : List Char).count 'L') :=
  scoreGuess_letter_conservation _ _ (by decide) (by decide) (by decide) 'L'

/-- Claim C10. For equal-length words, every position of the Scorer's output
carries a real verdict (`hit`, `present` or `miss`): the pass-1 placeholder
`empty` (the spec's `Pending`) never survives pass 2. -/
theorem scoreGuess_no_pending (guess answer : List Char)
    (_hlen : guess.length = answer.length) :
    ∀ l ∈ scoreGuess guess answer,
      l.state = .hit ∨ l.state = .present ∨ l.state = .miss := by
  intro l hl
  have h : l.state ≠ .empty := pass2_not_empty _ _ l hl
  cases hs : l.state <;> simp_all

/-- Witness for C10: the sole position of `score("A", "B")` carries `miss`. -/
theorem scoreGuess_no_pending_witness :
    (⟨'A', LetterState.miss⟩ : Letter).state = .hit ∨
      (⟨'A', LetterState.miss⟩ : Letter).state = .present ∨
      (⟨'A', LetterState.miss⟩ : Letter).state = .miss :=
  scoreGuess_no_pending ['A'] ['B'] (by decide) ⟨'A', .miss⟩ (by decide)

/-! ## Pattern helpfulness (C5) -/

theorem scorePattern_foldl (p : Guess) (n : Nat) :
    p.foldl
      (fun score l =>
        if l.state = .hit then score + 6
        else if l.state = .present then score + 1
        else score) n =
      n + 6 * countVerdict .hit p + countVerdict .present p := by
  induction p generalizing n with
  | nil => simp [countVerdict]
  | cons l rest ih =>
    simp only [List.foldl_cons]
    rw [ih]
    cases hs : l.state <;> simp [countVerdict, List.countP_cons, hs] <;> ring

/-- Claim C5. The helpfulness score of a pattern is `6·#hit + 1·#present`;
hence a pattern with at least one `hit` scores at least 6, strictly more
than the 5 of a pattern of five `present`s. -/
theorem scorePattern_spec (p q : Guess)
    (hq_len : q.length = 5) (hq : ∀ l ∈ q, l.state = .present) :
    scorePattern p = 6 * countVerdict .hit p + countVerdict .present p ∧
    scorePattern q = 5 ∧
    ((∃ l ∈ p, l.state = .hit) →
      6 ≤ scorePattern p ∧ scorePattern q < scorePattern p) := by
  have hp := scorePattern_foldl p 0
  have hqf := scorePattern_foldl q 0
  have hq_present : countVerdict .present q = 5 := by
    rw [countVerdict, List.countP_eq_length.mpr, hq_len]
    intro l hl
    simp [hq l hl]
  have hq_hit : countVerdict .hit q = 0 := by
    rw [countVerdict, List.countP_eq_zero]
    intro l hl
    simp [hq l hl]
  refine ⟨by simpa [scorePattern] using hp, ?_, ?_⟩
  · rw [scorePattern, hqf, hq_present, hq_hit]
  · intro ⟨l, hl, hstate⟩
    have hpos : 0 < countVerdict .hit p := by
      rw [countVerdict, List.countP_pos_iff]
      exact ⟨l, hl, by simp [hstate]⟩
    rw [scorePattern, hp, scorePattern, hqf, hq_present, hq_hit]
    omega

/-- Witness for C5: one `hit` (score 6) against five `present`s (score 5). -/
theorem scorePattern_spec_witness :
    scorePattern [⟨'A', .hit⟩] =
        6 * countVerdict .hit [⟨'A', .hit⟩] + countVerdict .present [⟨'A', .hit⟩] ∧
      scorePattern (List.replicate 5 ⟨'A', LetterState.present⟩) = 5 ∧
      ((∃ l ∈ [(⟨'A', .hit⟩ : Letter)], l.state = .hit) →
        6 ≤ scorePattern [⟨'A', .hit⟩] ∧
          scorePattern (List.replicate 5 ⟨'A', LetterState.present⟩) <
            scorePattern [⟨'A', .hit⟩]) :=
  scorePattern_spec [⟨'A', .hit⟩] (List.replicate 5 ⟨'A', .present⟩)
    (by decide) (by decide)

/-! ## AdversarialSelector (`absurdleScoreGuess`) -/

/-- The record returned by `GameService.absurdleScoreGuess`. -/
structure AbsurdleResult where
  pattern : Guess
  remainingWords : List (List Char)
  selectedAnswer : Option (List Char)
deriving DecidableEq, Repr

/-- Model of `GameService.absurdleScoreGuess(guess, candidateWords)`: score the guess
against every candidate, find the minimum helpfulness, keep all candidates
attaining it, and either withhold feedback (`state: "empty"` pattern),
or resolve to an answer.  The TypeScript throws when no scored candidate
exists (`Math.min()` of an empty spread, or an empty filter result), which
is modelled by `none`. -/
def absurdleScoreGuess (guess : List Char) (candidateWords : List (List Char)) :
    Option AbsurdleResult :=
  let guessUpper := guess.map Char.toUpper
  let wordScores := candidateWords.map (fun candidate =>
    (candidate, scoreGuess guessUpper candidate,
      scorePattern (scoreGuess guessUpper candidate)))
  match wordScores with
  | [] => none
  | w0 :: wrest =>
    let minScore := (wrest.map (fun ws => ws.2.2)).foldl Nat.min w0.2.2
    let lowestScoringWords := (w0 :: wrest).filter (fun ws => decide (ws.2.2 = minScore))
    match lowestScoringWords with
    | [] => none
    | first :: _ =>
      if minScore = 0 then
        if lowestScoringWords.length = 1 then
          some ⟨first.2.1, lowestScoringWords.map (fun ws => ws.1), some first.1⟩
        else
          some ⟨guessUpper.map (fun char => ⟨char, .empty⟩),
            lowestScoringWords.map (fun ws => ws.1), none⟩
      else
        some ⟨first.2.1, lowestScoringWords.map (fun ws => ws.1), some first.1⟩

example : absurdleScoreGuess ['A','B'] [['C','D'], ['D','C']] =
    some ⟨[⟨'A', .empty⟩, ⟨'B', .empty⟩], [['C','D'], ['D','C']], none⟩ := by decide

example : absurdleScoreGuess ['A','B'] [['C','D']] =
    some ⟨[⟨'A', .miss⟩, ⟨'B', .miss⟩], [['C','D']], some ['C','D']⟩ := by decide

example : absurdleScoreGuess ['A','B'] [['A','C'], ['X','Y']] =
    some ⟨[⟨'A', .miss⟩, ⟨'B', .miss⟩], [['X','Y']], some ['X','Y']⟩ := by decide

theorem foldl_min_le_init (rest : List Nat) (s : Nat) :
    rest.foldl Nat.min s ≤ s := by
  induction rest generalizing s with
  | nil => simp
  | cons a t ih =>
    simp only [List.foldl_cons]
    exact le_trans (ih (Nat.min s a)) (Nat.min_le_left s a)

theorem foldl_min_le_mem (rest : List Nat) (s : Nat) :
    ∀ x ∈ rest, rest.foldl Nat.min s ≤ x := by
  induction rest generalizing s with
  | nil => simp
  | cons a t ih =>
    intro x hx
    simp only [List.foldl_cons]
    rcases List.mem_cons.mp hx with rfl | hx'
    · exact le_trans (foldl_min_le_init t _) (Nat.min_le_right s x)
    · exact ih _ x hx'

theorem foldl_min_mem (rest : List Nat) (s : Nat) :
    rest.foldl Nat.min s ∈ s :: rest := by
  induction rest generalizing s with
  | nil => simp
  | cons a t ih =>
    simp only [List.foldl_cons]
    have h := ih (Nat.min s a)
    rcases List.mem_cons.mp h with h0 | h0
    · by_cases hsa : s ≤ a
      · have hm : Nat.min s a = s := by simp [Nat.min_def, hsa]
        rw [h0, hm]
        exact List.mem_cons_self _ _
      · have hm : Nat.min s a = a := by simp [Nat.min_def, hsa]
        rw [h0, hm]
        exact List.mem_cons_of_mem _ (List.mem_cons_self _ _)
    · exact List.mem_cons_of_mem _ (List.mem_cons_of_mem _ h0)

theorem filter_of_map {α β : Type} (f : α → β) (q : β → Bool) (l : List α) :
    (l.map f).filter q = (l.filter (fun x => q (f x))).map f := by
  induction l with
  | nil => rfl
  | cons a t ih =>
    simp only [List.map_cons, List.filter_cons]
    by_cases h : q (f a) <;> simp [h, ih]

/-- The words of the minimum-score entries are the pool's minimum-score words. -/
theorem absurdle_filter_words (gU c0 : List Char) (cs : List (List Char)) (m : Nat) :
    ((((c0 :: cs).map (fun candidate =>
          (candidate, scoreGuess gU candidate,
            scorePattern (scoreGuess gU candidate)))).filter
        (fun ws => decide (ws.2.2 = m))).map (fun ws => ws.1)) =
      (c0 :: cs).filter (fun c => decide (scorePattern (scoreGuess gU c) = m)) := by
  have hid : ((fun ws : List Char × Guess × Nat => ws.1) ∘ fun candidate =>
      (candidate, scoreGuess gU candidate, scorePattern (scoreGuess gU candidate))) = id := rfl
  rw [filter_of_map, List.map_map, hid, List.map_id]

/-- Claim C4. For every call of the adversarial selector on a non-empty pool,
a result is returned, its `remainingWords` all come from the pool, and a
non-null `selectedAnswer` is an element of the pool. -/
theorem absurdleScoreGuess_pool_sound (guess : List Char) (pool : List (List Char))
    (hne : pool ≠ []) :
    ∃ r, absurdleScoreGuess guess pool = some r ∧
      (∀ w ∈ r.remainingWords, w ∈ pool) ∧
      (∀ a, r.selectedAnswer = some a → a ∈ pool) := by
  obtain ⟨c0, cs, rfl⟩ := List.exists_cons_of_ne_nil hne
  simp only [absurdleScoreGuess, List.map_cons]
  set gU := guess.map Char.toUpper with hgU
  set F : List Char → List Char × Guess × Nat := fun candidate =>
    (candidate, scoreGuess gU candidate, scorePattern (scoreGuess gU candidate)) with hF
  set m := List.foldl Nat.min (scorePattern (scoreGuess gU c0))
    (List.map (fun ws => ws.2.2) (List.map F cs)) with hm
  have hexists : ∃ ws ∈ (c0, scoreGuess gU c0, scorePattern (scoreGuess gU c0)) ::
      List.map F cs, ws.2.2 = m := by
    have hmem : m ∈ scorePattern (scoreGuess gU c0) ::
        List.map (fun ws => ws.2.2) (List.map F cs) := by
      rw [hm]
      exact foldl_min_mem _ _
    rcases List.mem_cons.mp hmem with h | h
    · exact ⟨_, List.mem_cons_self _ _, h.symm⟩
    · obtain ⟨ws, hws, hval⟩ := List.mem_map.mp h
      exact ⟨ws, List.mem_cons_of_mem _ hws, hval⟩
  set L := List.filter (fun ws => decide (ws.2.2 = m))
      ((c0, scoreGuess gU c0, scorePattern (scoreGuess gU c0)) :: List.map F cs) with hL
  have hfne : L ≠ [] := by
    obtain ⟨ws, hws, hval⟩ := hexists
    rw [hL]
    intro hnil
    rw [List.filter_eq_nil_iff] at hnil
    exact hnil ws hws (by simp [hval])
  have hwords_eq : L.map (fun ws => ws.1) = (c0 :: cs).filter
      (fun c => decide (scorePattern (scoreGuess gU c) = m)) := by
    rw [hL]
    exact absurdle_filter_words gU c0 cs m
  have hLwords : ∀ w ∈ L.map (fun ws => ws.1), w ∈ c0 :: cs := by
    intro w hw
    rw [hwords_eq] at hw
    exact List.mem_of_mem_filter hw
  rcases L with _ | ⟨first, rest'⟩
  · exact absurd rfl hfne
  · by_cases hm0 : m = 0
    · by_cases hlen1 : (first :: rest').length = 1
      · refine ⟨⟨first.2.1, (first :: rest').map (fun ws => ws.1), some first.1⟩,
          by simp [hm0, hlen1], hLwords, ?_⟩
        intro a ha
        have haeq : a = first.1 := by
          simpa using ha.symm
        subst haeq
        exact hLwords first.1 (List.mem_map.mpr ⟨first, List.mem_cons_self _ _, rfl⟩)
      · have hr2 : rest' ≠ [] := by
          intro hr
          exact hlen1 (by simp [hr])
        refine ⟨⟨gU.map (fun char => ⟨char, .empty⟩),
            (first :: rest').map (fun ws => ws.1), none⟩,
          by simp [hm0, hr2], hLwords, ?_⟩
        intro a ha
        exact absurd ha (by simp)
    · refine ⟨⟨first.2.1, (first :: rest').map (fun ws => ws.1), some first.1⟩,
        by simp [hm0], hLwords, ?_⟩
      intro a ha
      have haeq : a = first.1 := by
        simpa using ha.symm
      subst haeq
      exact hLwords first.1 (List.mem_map.mpr ⟨first, List.mem_cons_self _ _, rfl⟩)

/-- Witness for C4 at a concrete two-candidate pool. -/
theorem absurdleScoreGuess_pool_sound_witness :
    ∃ r, absurdleScoreGuess ['A','B'] [['C','D'], ['D','C']] = some r ∧
      (∀ w ∈ r.remainingWords, w ∈ [['C','D'], ['D','C']]) ∧
      (∀ a, r.selectedAnswer = some a → a ∈ [['C','D'], ['D','C']]) :=
  absurdleScoreGuess_pool_sound ['A','B'] [['C','D'], ['D','C']] (by decide)

/-- Counterexample to C2 as stated: on a pool where the minimum
helpfulness 0 is attained by more than one candidate, the withheld
pattern's verdicts are the placeholder `empty` (the spec's `Pending`),
not `miss`. -/
theorem absurdleScoreGuess_pattern_is_pending_not_miss :
    (absurdleScoreGuess ['A','B'] [['C','D'], ['D','C']]).map
        (fun r => r.pattern.map (fun l => l.state)) =
      some [LetterState.empty, LetterState.empty] ∧
    LetterState.empty ≠ LetterState.miss := by decide

/-- Claim C2, amended. When the minimum helpfulness over the candidates is 0
and at least two candidates attain it, the selector withholds all
information: it returns one `empty` (Pending) verdict per guess letter
(never a real comparison, and not `miss` verdicts as the spec says),
`selectedAnswer = none`, and `remainingWords` equal to the set of
candidates attaining the minimum. -/
theorem absurdleScoreGuess_withholds (guess : List Char) (pool : List (List Char))
    (h2 : 2 ≤ (pool.filter (fun c =>
        decide (scorePattern (scoreGuess (guess.map Char.toUpper) c) = 0))).length) :
    absurdleScoreGuess guess pool =
      some ⟨(guess.map Char.toUpper).map (fun char => ⟨char, .empty⟩),
        pool.filter (fun c =>
          decide (scorePattern (scoreGuess (guess.map Char.toUpper) c) = 0)),
        none⟩ := by
  have hpool_ne : pool ≠ [] := by
    intro hnil
    rw [hnil] at h2
    simp at h2
  obtain ⟨c0, cs, rfl⟩ := List.exists_cons_of_ne_nil hpool_ne
  simp only [absurdleScoreGuess, List.map_cons]
  set gU := guess.map Char.toUpper with hgU
  set F : List Char → List Char × Guess × Nat := fun candidate =>
    (candidate, scoreGuess gU candidate, scorePattern (scoreGuess gU candidate)) with hF
  set m := List.foldl Nat.min (scorePattern (scoreGuess gU c0))
    (List.map (fun ws => ws.2.2) (List.map F cs)) with hm
  have hfilter_ne : (c0 :: cs).filter
      (fun c => decide (scorePattern (scoreGuess gU c) = 0)) ≠ [] := by
    intro hnil
    rw [hnil] at h2
    simp at h2
  obtain ⟨c, hcmem⟩ := List.exists_mem_of_ne_nil _ hfilter_ne
  have hcsplit := List.mem_filter.mp hcmem
  have hc_pool : c ∈ c0 :: cs := hcsplit.1
  have hc_zero : scorePattern (scoreGuess gU c) = 0 := by
    simpa using hcsplit.2
  have hm0 : m = 0 := by
    have hle : m ≤ scorePattern (scoreGuess gU c) := by
      rcases List.mem_cons.mp hc_pool with rfl | hmem
      · rw [hm]
        exact foldl_min_le_init _ _
      · rw [hm]
        apply foldl_min_le_mem
        exact List.mem_map.mpr ⟨F c, List.mem_map.mpr ⟨c, hmem, rfl⟩, rfl⟩
    omega
  set L := List.filter (fun ws => decide (ws.2.2 = m))
      ((c0, scoreGuess gU c0, scorePattern (scoreGuess gU c0)) :: List.map F cs) with hL
  have hwords_eq : L.map (fun ws => ws.1) = (c0 :: cs).filter
      (fun c => decide (scorePattern (scoreGuess gU c) = m)) := by
    rw [hL]
    exact absurdle_filter_words gU c0 cs m
  rw [hm0] at hwords_eq
  have hLlen : 2 ≤ L.length := by
    have hlm : (L.map (fun ws => ws.1)).length = L.length := List.length_map _ _
    rw [hwords_eq] at hlm
    omega
  rcases L with _ | ⟨first, rest'⟩
  · simp at hLlen
  · have hr2 : rest' ≠ [] := by
      intro hr
      rw [hr] at hLlen
      simp at hLlen
    simp [hm0, hr2, hwords_eq]

/-- Witness for the amended C2 at a concrete two-candidate pool. -/
theorem absurdleScoreGuess_withholds_witness :
    absurdleScoreGuess ['A','B'] [['C','D'], ['D','C']] =
      some ⟨[⟨'A', .empty⟩, ⟨'B', .empty⟩], [['C','D'], ['D','C']], none⟩ := by
  rw [absurdleScoreGuess_withholds ['A','B'] [['C','D'], ['D','C']] (by decide)]
  decide

/-! ## Game state (`types/game.ts` and `GameService`) -/

/-- Model of `"single" | "multiplayer" | "absurdle"`. -/
inductive GameMode where
  | single
  | multiplayer
  | absurdle
deriving DecidableEq, Repr

/-- Model of `"playing" | "won" | "lost"`. -/
inductive GameStatus where
  | playing
  | won
  | lost
deriving DecidableEq, Repr

/-- Model of `Player` from `types/game.ts`. -/
structure Player where
  id : String
  name : String
  guesses : List Guess
  isWinner : Bool
deriving DecidableEq, Repr

/-- Model of `ServerGameState` from `types/game.ts`.  The unresolved Absurdle answer
(`""`) is the empty word `[]`; `candidateWords` is `none` when the field is
`undefined` (non-Absurdle games). -/
structure ServerGameState where
  id : String
  answer : List Char
  mode : GameMode
  players : List Player
  currentPlayerIndex : Nat
  currentRow : Nat
  gameStatus : GameStatus
  winnerId : Option String
  maxRounds : Nat
  wordLength : Nat
  candidateWords : Option (List (List Char))
deriving DecidableEq, Repr

/-- The `throw new Error(...)` sites of `GameService.submitGuess`, plus
`playerIndexOutOfRange` for the JS `TypeError` that would occur if
`players[currentPlayerIndex]` were `undefined`. -/
inductive GameError where
  | gameNotFound
  | notPlaying
  | invalidGuessFormat
  | wrongLength (n : Nat)
  | lettersOnly
  | notAValidWord
  | turnError (name : String)
  | noCandidateWords
  | noValidPatterns
  | playerIndexOutOfRange
deriving DecidableEq, Repr

/-- JS `String.prototype.trim`: strip leading and trailing whitespace. -/
def trimWord (w : List Char) : List Char :=
  ((w.dropWhile Char.isWhitespace).reverse.dropWhile Char.isWhitespace).reverse

/-- Model of `guess.trim().toUpperCase()`. -/
def normalizeGuess (guess : List Char) : List Char :=
  (trimWord guess).map Char.toUpper

/-- The regex test `/^[A-Z]+$/`. -/
def lettersAZ (w : List Char) : Bool :=
  !w.isEmpty && w.all (fun c => 'A' ≤ c && c ≤ 'Z')

/-- Model of `GameService.isValidWord`: membership of the upper-cased word in the
dictionary. -/
def isValidWord (wordList : List (List Char)) (word : List Char) : Bool :=
  decide ((word.map Char.toUpper) ∈ wordList)

/-- The validation prefix of `GameService.submitGuess` (everything before
any state is touched), returning the normalized guess.  The JS turn check
`playerId && playerId !== currentPlayer.id` short-circuits on a falsy
(absent or empty) `playerId`. -/
def validateSubmit (wordList : List (List Char)) (game : ServerGameState)
    (guess : List Char) (playerId : Option String) : Except GameError (List Char) :=
  if game.gameStatus ≠ .playing then .error .notPlaying
  else if guess = [] then .error .invalidGuessFormat
  else
    let normalizedGuess := normalizeGuess guess
    if normalizedGuess.length ≠ game.wordLength then
      .error (.wrongLength game.wordLength)
    else if ¬ lettersAZ normalizedGuess then .error .lettersOnly
    else if ¬ isValidWord wordList normalizedGuess then .error .notAValidWord
    else if game.mode = .multiplayer then
      match playerId with
      | none => .ok normalizedGuess
      | some pid =>
        if pid = "" then .ok normalizedGuess
        else
          match game.players[game.currentPlayerIndex]? with
          | none => .error .playerIndexOutOfRange
          | some currentPlayer =>
            if pid ≠ currentPlayer.id then .error (.turnError currentPlayer.name)
            else .ok normalizedGuess
    else .ok normalizedGuess

/-- The scoring section of `GameService.submitGuess`: Absurdle delegation
(including the candidate-pool write, the answer resolution write and the
re-score) or plain scoring against the fixed answer.  Returns the game with
those writes applied plus the scored guess. -/
def scorePhase (game : ServerGameState) (normalizedGuess : List Char) :
    Except GameError (ServerGameState × Guess) :=
  if game.mode = .absurdle ∧ game.answer = [] then
    match game.candidateWords with
    | none => .error .noCandidateWords
    | some cands =>
      if cands.length = 0 then .error .noCandidateWords
      else
        match absurdleScoreGuess normalizedGuess cands with
        | none => .error .noValidPatterns
        | some result =>
          let game1 := { game with candidateWords := some result.remainingWords }
          match result.selectedAnswer with
          | some ans =>
            .ok ({ game1 with answer := ans }, scoreGuess normalizedGuess ans)
          | none => .ok (game1, result.pattern)
  else .ok (game, scoreGuess normalizedGuess game.answer)

/-- The state-update tail of `GameService.submitGuess`: record the guess on
the acting player, mark a win, advance turn/round and evaluate win/loss. -/
def applyGuess (game : ServerGameState) (normalizedGuess : List Char)
    (scoredGuess : Guess) (currentPlayer : Player) : ServerGameState × Guess :=
  let isWin :=
    if game.mode = .absurdle then
      decide (game.answer ≠ [] ∧ normalizedGuess = game.answer)
    else decide (normalizedGuess = game.answer)
  let updatedPlayer := { currentPlayer with
    guesses := currentPlayer.guesses ++ [scoredGuess],
    isWinner := currentPlayer.isWinner || isWin }
  let players := game.players.set game.currentPlayerIndex updatedPlayer
  if game.mode = .multiplayer then
    let newIndex := (game.currentPlayerIndex + 1) % players.length
    let newRow := if newIndex = 0 then game.currentRow + 1 else game.currentRow
    let g := { game with
      players := players
      currentPlayerIndex := newIndex
      currentRow := newRow }
    if newIndex = 0 ∨ game.gameStatus ≠ .playing then
      match players.filter (fun p => p.isWinner) with
      | w :: _ => ({ g with gameStatus := .won, winnerId := some w.id }, scoredGuess)
      | [] =>
        if g.maxRounds ≤ newRow then ({ g with gameStatus := .lost }, scoredGuess)
        else (g, scoredGuess)
    else (g, scoredGuess)
  else
    if isWin then
      ({ game with
          players := players
          gameStatus := .won
          winnerId := some currentPlayer.id }, scoredGuess)
    else
      let newRow := game.currentRow + 1
      if game.maxRounds ≤ newRow then
        ({ game with
            players := players
            currentRow := newRow
            gameStatus := .lost }, scoredGuess)
      else ({ game with players := players, currentRow := newRow }, scoredGuess)

/-- Model of `GameService.submitGuess` acting on one stored game: validation, then
scoring, then the state update (the source's program order). -/
def submitGuessGame (wordList : List (List Char)) (game : ServerGameState)
    (guess : List Char) (playerId : Option String) :
    Except GameError (ServerGameState × Guess) :=
  match validateSubmit wordList game guess playerId with
  | .error e => .error e
  | .ok normalizedGuess =>
    match scorePhase game normalizedGuess with
    | .error e => .error e
    | .ok (game1, scoredGuess) =>
      match game1.players[game1.currentPlayerIndex]? with
      | none => .error .playerIndexOutOfRange
      | some currentPlayer =>
        .ok (applyGuess game1 normalizedGuess scoredGuess currentPlayer)

/-- Model of `this.games.get(gameId)` over the association-list model of the map. -/
def lookupStore (games : List (String × ServerGameState)) (gameId : String) :
    Option ServerGameState :=
  match games with
  | [] => none
  | (k, g) :: rest => if k = gameId then some g else lookupStore rest gameId

/-- Replacing the stored game under its key (the in-place mutation of the
object held by the map). -/
def updateStore (games : List (String × ServerGameState)) (gameId : String)
    (g : ServerGameState) : List (String × ServerGameState) :=
  match games with
  | [] => []
  | (k, g0) :: rest =>
    if k = gameId then (k, g) :: rest else (k, g0) :: updateStore rest gameId g

/-- Model of `GameService.submitGuess` against the stored map. -/
def submitGuess (wordList : List (List Char))
    (games : List (String × ServerGameState)) (gameId : String)
    (guess : List Char) (playerId : Option String) :
    Except GameError (List (String × ServerGameState) × Guess) :=
  match lookupStore games gameId with
  | none => .error .gameNotFound
  | some game =>
    match submitGuessGame wordList game guess playerId with
    | .error e => .error e
    | .ok (game2, scoredGuess) => .ok (updateStore games gameId game2, scoredGuess)

/-- The stored map as observed after a `submitGuess` call: a `throw` in the
TypeScript unwinds before any field of the stored game is written (every
validation failure precedes the first state write in program order), so on
an error the map keeps its prior value. -/
def submitAfter (wordList : List (List Char))
    (games : List (String × ServerGameState)) (gameId : String)
    (guess : List Char) (playerId : Option String) :
    List (String × ServerGameState) :=
  match submitGuess wordList games gameId guess playerId with
  | .ok (games2, _) => games2
  | .error _ => games

/-- Model of `GameService.getGameAnswer`. -/
def getGameAnswer (games : List (String × ServerGameState)) (gameId : String) :
    Option (List Char) :=
  match lookupStore games gameId with
  | none => none
  | some game =>
    if game.gameStatus = .playing then none
    else if game.mode = .absurdle then
      if game.answer ≠ [] then some game.answer
      else
        match game.candidateWords with
        | some [w] => some w
        | _ => none
    else some game.answer

/-! ## Inversion helpers for `submitGuessGame` -/

theorem validateSubmit_ok (wordList : List (List Char)) (game : ServerGameState)
    (guess : List Char) (playerId : Option String) (n : List Char)
    (h : validateSubmit wordList game guess playerId = .ok n) :
    n = normalizeGuess guess := by
  simp only [validateSubmit] at h
  repeat' split at h
  all_goals simp_all

theorem submitGuessGame_ok_inv (wordList : List (List Char))
    (game : ServerGameState) (guess : List Char) (playerId : Option String)
    (game2 : ServerGameState) (sc : Guess)
    (h : submitGuessGame wordList game guess playerId = .ok (game2, sc)) :
    ∃ g1 sc1 p, scorePhase game (normalizeGuess guess) = .ok (g1, sc1) ∧
      g1.players[g1.currentPlayerIndex]? = some p ∧
      (game2, sc) = applyGuess g1 (normalizeGuess guess) sc1 p := by
  unfold submitGuessGame at h
  split at h
  · exact absurd h (by simp)
  · rename_i n hv
    rw [validateSubmit_ok wordList game guess playerId n hv] at h
    split at h
    · exact absurd h (by simp)
    · rename_i g1 sc1 hs
      split at h
      · exact absurd h (by simp)
      · rename_i p hp
        exact ⟨g1, sc1, p, hs, hp, by simpa using h.symm⟩

theorem absurdleScoreGuess_remaining (guess : List Char)
    (pool : List (List Char)) (r : AbsurdleResult)
    (h : absurdleScoreGuess guess pool = some r) :
    r.remainingWords ≠ [] := by
  rcases pool with _ | ⟨c0, cs⟩
  · simp [absurdleScoreGuess] at h
  · simp only [absurdleScoreGuess, List.map_cons] at h
    split at h
    · exact absurd h (by simp)
    next first tail heq =>
      rw [heq] at h
      repeat' split at h
      all_goals
        (rw [Option.some_inj] at h
         rw [← h]
         simp)

theorem applyGuess_answer_candidates (game : ServerGameState)
    (n : List Char) (sc : Guess) (p : Player) :
    (applyGuess game n sc p).1.answer = game.answer ∧
      (applyGuess game n sc p).1.candidateWords = game.candidateWords := by
  simp only [applyGuess]
  constructor <;> (repeat' split) <;> simp

deriving instance DecidableEq for Except

/-! ## C3: Adversarial resolution inside `submitGuess` -/

/-- A two-word dictionary used in concrete Adversarial scenarios. -/
def c3WordList : List (List Char) := [['C','D'], ['A','B']]

/-- An Adversarial session with an unresolved answer and a single-candidate
pool. -/
def c3Game : ServerGameState :=
  ⟨"g", [], .absurdle, [⟨"p", "Player", [], false⟩], 0, 0, .playing,
    none, 6, 2, some [['A','B']]⟩

/-- Counterexample to C3 as stated: submitting `"CD"` forces resolution
(`answer` becomes `"AB"`), yet `candidateWords` is not cleared — it still
holds the non-empty narrowed pool, so both clauses of the claimed
"exactly one of" invariant hold at once. -/
theorem submitGuess_resolution_keeps_pool :
    (match submitGuessGame c3WordList c3Game ['C','D'] none with
      | .ok (g2, _) => some (g2.answer, g2.candidateWords)
      | .error _ => none) = some (['A','B'], some [['A','B']]) ∧
      (some [['A','B']] : Option (List (List Char))) ≠ none := by decide

/-- Claim C3, amended. In Adversarial mode, when `submitGuess` receives a
`selectedAnswer` from the selector it sets the session's answer to it and
replaces — rather than clears — `candidateWords` with the selector's
non-empty `remainingWords`; hence after resolution the answer is resolved
and the stored candidate pool is still non-empty (both hold, not exactly
one of them). -/
theorem submitGuess_resolution (wordList : List (List Char))
    (game game2 : ServerGameState) (guess : List Char) (playerId : Option String)
    (sc : Guess) (cands : List (List Char)) (r : AbsurdleResult) (ans : List Char)
    (hmode : game.mode = .absurdle) (hans : game.answer = [])
    (hcands : game.candidateWords = some cands)
    (hr : absurdleScoreGuess (normalizeGuess guess) cands = some r)
    (hsel : r.selectedAnswer = some ans)
    (hok : submitGuessGame wordList game guess playerId = .ok (game2, sc)) :
    game2.answer = ans ∧ game2.candidateWords = some r.remainingWords ∧
      r.remainingWords ≠ [] := by
  obtain ⟨g1, sc1, p, hs, hp, happ⟩ := submitGuessGame_ok_inv _ _ _ _ _ _ hok
  simp [scorePhase, hmode, hans, hcands, hr, hsel] at hs
  split at hs
  · exact absurd hs (by simp)
  · have hpair := Except.ok.inj hs
    have hg1a : g1.answer = ans := by
      have hc := congrArg (fun x : ServerGameState × Guess => x.1.answer) hpair
      simpa using hc.symm
    have hg1c : g1.candidateWords = some r.remainingWords := by
      have hc := congrArg (fun x : ServerGameState × Guess => x.1.candidateWords) hpair
      simpa using hc.symm
    have hg2 : game2 = (applyGuess g1 (normalizeGuess guess) sc1 p).1 := by
      rw [← happ]
    have hpres := applyGuess_answer_candidates g1 (normalizeGuess guess) sc1 p
    refine ⟨?_, ?_, absurdleScoreGuess_remaining _ _ _ hr⟩
    · rw [hg2, hpres.1, hg1a]
    · rw [hg2, hpres.2, hg1c]

/-- The selector result for guess `"CD"` against the pool `{"AB"}`. -/
def c3Result : AbsurdleResult :=
  ⟨[⟨'C', .miss⟩, ⟨'D', .miss⟩], [['A','B']], some ['A','B']⟩

/-- The session stored after the resolving submission of `"CD"`. -/
def c3Game2 : ServerGameState :=
  ⟨"g", ['A','B'], .absurdle,
    [⟨"p", "Player", [[⟨'C', .miss⟩, ⟨'D', .miss⟩]], false⟩],
    0, 1, .playing, none, 6, 2, some [['A','B']]⟩

/-- Witness for the amended C3 on the concrete resolving submission. -/
theorem submitGuess_resolution_witness :
    c3Game2.answer = ['A','B'] ∧
      c3Game2.candidateWords = some c3Result.remainingWords ∧
      c3Result.remainingWords ≠ [] :=
  submitGuess_resolution c3WordList c3Game c3Game2 ['C','D'] none
    [⟨'C', .miss⟩, ⟨'D', .miss⟩] [['A','B']] c3Result ['A','B']
    (by decide) (by decide) (by decide) (by decide) (by decide) (by decide)

/-! ## C9: `getGameAnswer` -/

/-- Claim C9. `getGameAnswer` yields `none` for an unknown session id and
while the session is `playing`; once the status is `won` or `lost` it
yields the stored answer, and for an Adversarial session whose answer is
unresolved it yields the sole remaining candidate exactly when the pool is
a singleton and `none` otherwise. -/
theorem getGameAnswer_spec (games : List (String × ServerGameState)) (gameId : String) :
    (lookupStore games gameId = none → getGameAnswer games gameId = none) ∧
    (∀ g, lookupStore games gameId = some g →
      (g.gameStatus = .playing → getGameAnswer games gameId = none) ∧
      (g.gameStatus ≠ .playing →
        (g.mode ≠ .absurdle → getGameAnswer games gameId = some g.answer) ∧
        (g.mode = .absurdle → g.answer ≠ [] →
          getGameAnswer games gameId = some g.answer) ∧
        (g.mode = .absurdle → g.answer = [] →
          (∀ w, g.candidateWords = some [w] → getGameAnswer games gameId = some w) ∧
          ((∀ w, g.candidateWords ≠ some [w]) →
            getGameAnswer games gameId = none)))) := by
  unfold getGameAnswer
  constructor
  · intro h
    rw [h]
  · intro g hg
    rw [hg]
    constructor
    · intro hp
      simp [hp]
    · intro hnp
      refine ⟨?_, ?_, ?_⟩
      · intro hm
        simp [hnp, hm]
      · intro hm hans
        simp [hnp, hm, hans]
      · intro hm hans
        constructor
        · intro w hw
          simp [hnp, hm, hans, hw]
        · intro hnsing
          rcases hcw : g.candidateWords with _ | l
          · simp [hnp, hm, hans, hcw]
          · rcases l with _ | ⟨w, rest⟩
            · simp [hnp, hm, hans, hcw]
            · rcases rest with _ | ⟨w2, rest2⟩
              · exact absurd hcw (hnsing w)
              · simp [hnp, hm, hans, hcw]

/-- A finished (won) Classic session used as the C9 witness. -/
def c9Game : ServerGameState :=
  ⟨"g", ['A','B'], .single, [⟨"p", "Player", [], true⟩], 0, 1, .won,
    some "p", 6, 2, none⟩

/-- Witness for C9: a completed game's answer is revealed. -/
theorem getGameAnswer_spec_witness :
    getGameAnswer [("g", c9Game)] "g" = some c9Game.answer :=
  (((getGameAnswer_spec [("g", c9Game)] "g").2 c9Game (by decide)).2
    (by decide)).1 (by decide)

/-! ## C8: failures leave the store unchanged -/

theorem validateSubmit_not_playing (wordList : List (List Char))
    (game : ServerGameState) (guess : List Char) (playerId : Option String)
    (h : game.gameStatus ≠ .playing) :
    validateSubmit wordList game guess playerId = .error .notPlaying := by
  simp only [validateSubmit]
  rw [if_pos h]

theorem validateSubmit_ok_checks (wordList : List (List Char))
    (game : ServerGameState) (guess : List Char) (playerId : Option String)
    (n : List Char) (h : validateSubmit wordList game guess playerId = .ok n) :
    game.gameStatus = .playing ∧ guess ≠ [] ∧
      (normalizeGuess guess).length = game.wordLength ∧
      lettersAZ (normalizeGuess guess) = true ∧
      isValidWord wordList (normalizeGuess guess) = true := by
  simp only [validateSubmit] at h
  repeat' split at h
  all_goals simp_all

theorem validateSubmit_errors (wordList : List (List Char))
    (game : ServerGameState) (guess : List Char) (playerId : Option String)
    (hbad : (normalizeGuess guess).length ≠ game.wordLength ∨
      lettersAZ (normalizeGuess guess) = false ∨
      isValidWord wordList (normalizeGuess guess) = false) :
    ∃ e, validateSubmit wordList game guess playerId = .error e := by
  rcases hv : validateSubmit wordList game guess playerId with e | n
  · exact ⟨e, rfl⟩
  · exfalso
    have hc := validateSubmit_ok_checks wordList game guess playerId n hv
    rcases hbad with hb | hb | hb
    · exact hb hc.2.2.1
    · rw [hc.2.2.2.1] at hb
      exact absurd hb (by simp)
    · rw [hc.2.2.2.2] at hb
      exact absurd hb (by simp)

theorem validateSubmit_turn (wordList : List (List Char))
    (game : ServerGameState) (guess : List Char) (playerId : Option String)
    (p : String) (cp : Player)
    (hplay : game.gameStatus = .playing) (hg : guess ≠ [])
    (hlen : (normalizeGuess guess).length = game.wordLength)
    (hletters : lettersAZ (normalizeGuess guess) = true)
    (hword : isValidWord wordList (normalizeGuess guess) = true)
    (hmode : game.mode = .multiplayer)
    (hpid : playerId = some p) (hp0 : p ≠ "")
    (hcp : game.players[game.currentPlayerIndex]? = some cp)
    (hne : p ≠ cp.id) :
    validateSubmit wordList game guess playerId =
      .error (.turnError cp.name) := by
  simp only [validateSubmit]
  rw [if_neg (by simp [hplay])]
  rw [if_neg hg]
  rw [if_neg (by simp [hlen])]
  rw [if_neg (by simp [hletters])]
  rw [if_neg (by simp [hword])]
  rw [if_pos hmode]
  simp only [hpid, hcp]
  rw [if_neg hp0]
  rw [if_pos hne]

theorem submitGuessGame_error_of_validate (wordList : List (List Char))
    (game : ServerGameState) (guess : List Char) (playerId : Option String)
    (e : GameError)
    (h : validateSubmit wordList game guess playerId = .error e) :
    submitGuessGame wordList game guess playerId = .error e := by
  unfold submitGuessGame
  rw [h]

theorem submitGuess_error_eq (wordList : List (List Char))
    (games : List (String × ServerGameState)) (gameId : String)
    (guess : List Char) (playerId : Option String) (g : ServerGameState)
    (e : GameError) (hlk : lookupStore games gameId = some g)
    (he : submitGuessGame wordList g guess playerId = .error e) :
    submitGuess wordList games gameId guess playerId = .error e ∧
      submitAfter wordList games gameId guess playerId = games := by
  have h1 : submitGuess wordList games gameId guess playerId = .error e := by
    simp only [submitGuess, hlk, he]
  exact ⟨h1, by simp only [submitAfter, h1]⟩

/-- Claim C8. Every listed failure of `submitGuess` — unknown session id,
session not playing, wrong (normalized) guess length, non-alphabetic guess,
non-dictionary guess, wrong acting player in Multiplayer — yields an error
and leaves the stored map exactly as it was: no session is touched, so no
guess is appended and `currentPlayerIndex`, `currentRow`, `gameStatus`,
`answer` and `candidateWords` keep their prior values. -/
theorem submitGuess_error_no_mutation (wordList : List (List Char))
    (games : List (String × ServerGameState)) (gameId : String)
    (guess : List Char) (playerId : Option String) :
    (lookupStore games gameId = none →
      submitGuess wordList games gameId guess playerId = .error .gameNotFound ∧
      submitAfter wordList games gameId guess playerId = games) ∧
    (∀ g, lookupStore games gameId = some g →
      (g.gameStatus ≠ .playing →
        submitGuess wordList games gameId guess playerId = .error .notPlaying ∧
        submitAfter wordList games gameId guess playerId = games) ∧
      ((normalizeGuess guess).length ≠ g.wordLength →
        (∃ e, submitGuess wordList games gameId guess playerId = .error e) ∧
        submitAfter wordList games gameId guess playerId = games) ∧
      (lettersAZ (normalizeGuess guess) = false →
        (∃ e, submitGuess wordList games gameId guess playerId = .error e) ∧
        submitAfter wordList games gameId guess playerId = games) ∧
      (isValidWord wordList (normalizeGuess guess) = false →
        (∃ e, submitGuess wordList games gameId guess playerId = .error e) ∧
        submitAfter wordList games gameId guess playerId = games) ∧
      (∀ p cp, g.gameStatus = .playing → guess ≠ [] →
        (normalizeGuess guess).length = g.wordLength →
        lettersAZ (normalizeGuess guess) = true →
        isValidWord wordList (normalizeGuess guess) = true →
        g.mode = .multiplayer → playerId = some p → p ≠ "" →
        g.players[g.currentPlayerIndex]? = some cp → p ≠ cp.id →
        submitGuess wordList games gameId guess playerId =
          .error (.turnError cp.name) ∧
        submitAfter wordList games gameId guess playerId = games)) := by
  constructor
  · intro hlk
    have h1 : submitGuess wordList games gameId guess playerId =
        .error .gameNotFound := by
      simp only [submitGuess, hlk]
    exact ⟨h1, by simp only [submitAfter, h1]⟩
  · intro g hlk
    refine ⟨?_, ?_, ?_, ?_, ?_⟩
    · intro hnp
      exact submitGuess_error_eq wordList games gameId guess playerId g _ hlk
        (submitGuessGame_error_of_validate _ _ _ _ _
          (validateSubmit_not_playing _ _ _ _ hnp))
    · intro hbad
      obtain ⟨e, he⟩ := validateSubmit_errors wordList g guess playerId (.inl hbad)
      have h := submitGuess_error_eq wordList games gameId guess playerId g e hlk
        (submitGuessGame_error_of_validate _ _ _ _ _ he)
      exact ⟨⟨e, h.1⟩, h.2⟩
    · intro hbad
      obtain ⟨e, he⟩ := validateSubmit_errors wordList g guess playerId
        (.inr (.inl hbad))
      have h := submitGuess_error_eq wordList games gameId guess playerId g e hlk
        (submitGuessGame_error_of_validate _ _ _ _ _ he)
      exact ⟨⟨e, h.1⟩, h.2⟩
    · intro hbad
      obtain ⟨e, he⟩ := validateSubmit_errors wordList g guess playerId
        (.inr (.inr hbad))
      have h := submitGuess_error_eq wordList games gameId guess playerId g e hlk
        (submitGuessGame_error_of_validate _ _ _ _ _ he)
      exact ⟨⟨e, h.1⟩, h.2⟩
    · intro p cp hplay hg hlen hletters hword hmode hpid hp0 hcp hne
      exact submitGuess_error_eq wordList games gameId guess playerId g _ hlk
        (submitGuessGame_error_of_validate _ _ _ _ _
          (validateSubmit_turn wordList g guess playerId p cp hplay hg hlen
            hletters hword hmode hpid hp0 hcp hne))

/-- Witness for C8: a guess against an unknown session id fails with
`gameNotFound` and leaves the (empty) store unchanged. -/
theorem submitGuess_error_no_mutation_witness :
    submitGuess [['A','B']] [] "g" ['A','B'] none = .error .gameNotFound ∧
      submitAfter [['A','B']] [] "g" ['A','B'] none = [] :=
  (submitGuess_error_no_mutation [['A','B']] [] "g" ['A','B'] none).1 rfl

/-! ## C6: multiplayer tie -/

theorem validateSubmit_passes (wordList : List (List Char))
    (game : ServerGameState) (guess : List Char)
    (hplay : game.gameStatus = .playing) (hg : guess ≠ [])
    (hnorm : normalizeGuess guess = guess)
    (hlen : guess.length = game.wordLength)
    (hletters : lettersAZ guess = true)
    (hword : isValidWord wordList guess = true) :
    validateSubmit wordList game guess none = .ok guess := by
  simp only [validateSubmit]
  rw [if_neg (by simp [hplay])]
  rw [if_neg hg]
  rw [hnorm]
  rw [if_neg (by simp [hlen])]
  rw [if_neg (by simp [hletters])]
  rw [if_neg (by simp [hword])]
  by_cases hm : game.mode = .multiplayer
  · rw [if_pos hm]
  · rw [if_neg hm]

theorem scorePhase_normal (game : ServerGameState) (n : List Char)
    (h : game.mode ≠ .absurdle) :
    scorePhase game n = .ok (game, scoreGuess n game.answer) := by
  simp only [scorePhase]
  rw [if_neg (by simp [h])]

theorem submitGuessGame_eq (wordList : List (List Char))
    (game : ServerGameState) (guess : List Char) (playerId : Option String)
    (n : List Char) (g1 : ServerGameState) (sc1 : Guess) (p : Player)
    (hv : validateSubmit wordList game guess playerId = .ok n)
    (hs : scorePhase game n = .ok (g1, sc1))
    (hp : g1.players[g1.currentPlayerIndex]? = some p) :
    submitGuessGame wordList game guess playerId =
      .ok (applyGuess g1 n sc1 p) := by
  simp only [submitGuessGame, hv, hs, hp]

/-- Claim C6. In a 2-player Multiplayer session at the start of a round, if
both players submit the correct answer within that round then after the
round completes the status is `won` and the set of winners (the players
with `isWinner = true`, the spec's `winnerIds`) has exactly the two
players' ids. -/
theorem multiplayer_tie (wordList : List (List Char)) (w : List Char)
    (gid p0id p0name p1id p1name : String) (p0g p1g : List Guess)
    (row maxR : Nat) (wid : Option String) (cw : Option (List (List Char)))
    (hg : w ≠ []) (htrim : trimWord w = w) (hupper : w.map Char.toUpper = w)
    (hletters : lettersAZ w = true) (hmem : w ∈ wordList) :
    ∃ g1 g2 sc1 sc2,
      submitGuessGame wordList
        ⟨gid, w, .multiplayer,
          [⟨p0id, p0name, p0g, false⟩, ⟨p1id, p1name, p1g, false⟩],
          0, row, .playing, wid, maxR, w.length, cw⟩ w none = .ok (g1, sc1) ∧
      submitGuessGame wordList g1 w none = .ok (g2, sc2) ∧
      g2.gameStatus = .won ∧
      (g2.players.filter (fun p => p.isWinner)).map (fun p => p.id) =
        [p0id, p1id] := by
  have hword : isValidWord wordList w = true := by
    simp [isValidWord, hupper, hmem]
  have hnorm : normalizeGuess w = w := by
    rw [normalizeGuess, htrim, hupper]
  refine ⟨⟨gid, w, .multiplayer,
      [⟨p0id, p0name, p0g ++ [scoreGuess w w], true⟩,
       ⟨p1id, p1name, p1g, false⟩],
      1, row, .playing, wid, maxR, w.length, cw⟩,
    ⟨gid, w, .multiplayer,
      [⟨p0id, p0name, p0g ++ [scoreGuess w w], true⟩,
       ⟨p1id, p1name, p1g ++ [scoreGuess w w], true⟩],
      0, row + 1, .won, some p0id, maxR, w.length, cw⟩,
    scoreGuess w w, scoreGuess w w, ?_, ?_, rfl, by simp⟩
  · have hv : validateSubmit wordList
        ⟨gid, w, .multiplayer,
          [⟨p0id, p0name, p0g, false⟩, ⟨p1id, p1name, p1g, false⟩],
          0, row, .playing, wid, maxR, w.length, cw⟩ w none = .ok w :=
      validateSubmit_passes _ _ _ rfl hg hnorm rfl hletters hword
    have hsp := scorePhase_normal
      ⟨gid, w, .multiplayer,
        [⟨p0id, p0name, p0g, false⟩, ⟨p1id, p1name, p1g, false⟩],
        0, row, .playing, wid, maxR, w.length, cw⟩ w (by simp)
    rw [submitGuessGame_eq _ _ _ _ _ _ _ ⟨p0id, p0name, p0g, false⟩ hv hsp rfl]
    simp [applyGuess]
  · have hv : validateSubmit wordList
        ⟨gid, w, .multiplayer,
          [⟨p0id, p0name, p0g ++ [scoreGuess w w], true⟩,
           ⟨p1id, p1name, p1g, false⟩],
          1, row, .playing, wid, maxR, w.length, cw⟩ w none = .ok w :=
      validateSubmit_passes _ _ _ rfl hg hnorm rfl hletters hword
    have hsp := scorePhase_normal
      ⟨gid, w, .multiplayer,
        [⟨p0id, p0name, p0g ++ [scoreGuess w w], true⟩,
         ⟨p1id, p1name, p1g, false⟩],
        1, row, .playing, wid, maxR, w.length, cw⟩ w (by simp)
    rw [submitGuessGame_eq _ _ _ _ _ _ _ ⟨p1id, p1name, p1g, false⟩ hv hsp rfl]
    simp [applyGuess]

/-- Witness for C6 at a concrete 2-player session. -/
theorem multiplayer_tie_witness :
    ∃ g1 g2 sc1 sc2,
      submitGuessGame [['A','B']]
        ⟨"g", ['A','B'], .multiplayer,
          [⟨"p0", "P0", [], false⟩, ⟨"p1", "P1", [], false⟩],
          0, 0, .playing, none, 6, (['A','B'] : List Char).length, none⟩
        ['A','B'] none = .ok (g1, sc1) ∧
      submitGuessGame [['A','B']] g1 ['A','B'] none = .ok (g2, sc2) ∧
      g2.gameStatus = .won ∧
      (g2.players.filter (fun p => p.isWinner)).map (fun p => p.id) =
        ["p0", "p1"] :=
  multiplayer_tie [['A','B']] ['A','B'] "g" "p0" "P0" "p1" "P1" [] [] 0 6
    none none (by decide) (by decide) (by decide) (by decide) (by decide)

/-! ## C7: multiplayer turn cycling -/

theorem applyGuess_multiplayer (game : ServerGameState) (n : List Char)
    (sc : Guess) (p : Player) (hm : game.mode = .multiplayer) :
    (applyGuess game n sc p).1.mode = .multiplayer ∧
    (applyGuess game n sc p).1.players.length = game.players.length ∧
    (applyGuess game n sc p).1.currentPlayerIndex =
      (game.currentPlayerIndex + 1) % game.players.length ∧
    (applyGuess game n sc p).1.currentRow =
      (if (game.currentPlayerIndex + 1) % game.players.length = 0
        then game.currentRow + 1 else game.currentRow) := by
  simp only [applyGuess]
  rw [if_pos hm]
  repeat' split
  all_goals simp_all [List.length_set]

theorem submitGuessGame_multiplayer_step (wordList : List (List Char))
    (g g' : ServerGameState) (guess : List Char) (pid : Option String)
    (sc : Guess)
    (hok : submitGuessGame wordList g guess pid = .ok (g', sc))
    (hm : g.mode = .multiplayer) :
    g'.mode = .multiplayer ∧
    g'.players.length = g.players.length ∧
    g'.currentPlayerIndex = (g.currentPlayerIndex + 1) % g.players.length ∧
    g'.currentRow = (if (g.currentPlayerIndex + 1) % g.players.length = 0
      then g.currentRow + 1 else g.currentRow) := by
  obtain ⟨g1, sc1, p, hs, hp, happ⟩ := submitGuessGame_ok_inv _ _ _ _ _ _ hok
  rw [scorePhase_normal g _ (by simp [hm])] at hs
  have hpair := Except.ok.inj hs
  have hg1 : g = g1 := congrArg Prod.fst hpair
  subst hg1
  have hg' : g' = (applyGuess g (normalizeGuess guess) sc1 p).1 := by
    rw [← happ]
  rw [hg']
  exact applyGuess_multiplayer g (normalizeGuess guess) sc1 p hm

/-- A sequence of successful guess submissions after each of which the
session is still `playing`; inputs are `(guess, playerId)` pairs. -/
inductive SubmitSeq (wordList : List (List Char)) :
    ServerGameState → List (List Char × Option String) → ServerGameState →
      Prop where
  | nil (g : ServerGameState) : SubmitSeq wordList g [] g
  | cons {g g' g'' : ServerGameState} {gs : List Char} {pid : Option String}
      {rest : List (List Char × Option String)} {sc : Guess}
      (hok : submitGuessGame wordList g gs pid = .ok (g', sc))
      (hplay : g'.gameStatus = .playing)
      (hrest : SubmitSeq wordList g' rest g'') :
      SubmitSeq wordList g ((gs, pid) :: rest) g''

theorem submitSeq_progress (wordList : List (List Char))
    {g g' : ServerGameState} {inputs : List (List Char × Option String)}
    (hseq : SubmitSeq wordList g inputs g') :
    g.mode = .multiplayer → g.currentPlayerIndex < g.players.length →
    g'.mode = .multiplayer ∧ g'.players.length = g.players.length ∧
    g'.currentPlayerIndex < g.players.length ∧
    g'.currentRow * g.players.length + g'.currentPlayerIndex =
      g.currentRow * g.players.length + g.currentPlayerIndex +
        inputs.length := by
  induction hseq with
  | nil g0 =>
    intro hm hidx
    exact ⟨hm, rfl, hidx, by simp⟩
  | cons hok hplay hrest ih =>
    intro hm hidx
    rename_i g0 g1 g2 gs pid rest sc
    obtain ⟨hm1, hlen1, hidx1, hrow1⟩ :=
      submitGuessGame_multiplayer_step _ _ _ _ _ _ hok hm
    have hNpos : 0 < g0.players.length := Nat.lt_of_le_of_lt (Nat.zero_le _) hidx
    have hidx1' : g1.currentPlayerIndex < g1.players.length := by
      rw [hidx1, hlen1]
      exact Nat.mod_lt _ hNpos
    obtain ⟨hmf, hlenf, hidxf, hrowf⟩ := ih hm1 hidx1'
    rw [hlen1] at hlenf hidxf hrowf
    have hstep : g1.currentRow * g0.players.length + g1.currentPlayerIndex =
        g0.currentRow * g0.players.length + g0.currentPlayerIndex + 1 := by
      rw [hrow1, hidx1]
      by_cases hc : (g0.currentPlayerIndex + 1) % g0.players.length = 0
      · rw [if_pos hc, hc]
        have hiN : g0.currentPlayerIndex + 1 = g0.players.length := by
          obtain ⟨k, hk⟩ := Nat.dvd_of_mod_eq_zero hc
          match k, hk with
          | 0, hk => omega
          | 1, hk => omega
          | (k + 2), hk =>
            have h2 : g0.players.length * 2 ≤ g0.players.length * (k + 2) :=
              Nat.mul_le_mul_left _ (by omega)
            omega
        rw [Nat.succ_mul]
        omega
      · rw [if_neg hc]
        have hlt : g0.currentPlayerIndex + 1 < g0.players.length := by
          rcases Nat.lt_or_ge (g0.currentPlayerIndex + 1) g0.players.length
            with h | h
          · exact h
          · have he : g0.currentPlayerIndex + 1 = g0.players.length := by omega
            rw [he, Nat.mod_self] at hc
            exact absurd rfl hc
        rw [Nat.mod_eq_of_lt hlt]
        ring
    refine ⟨hmf, hlenf, hidxf, ?_⟩
    rw [hrowf, hstep]
    simp [List.length_cons]
    omega

theorem mul_add_inj (N a b c d : Nat) (hb : b < N) (hd : d < N)
    (h : a * N + b = c * N + d) : a = c ∧ b = d := by
  have hNpos : 0 < N := Nat.lt_of_le_of_lt (Nat.zero_le _) hb
  constructor
  · have h1 := congrArg (fun x => x / N) h
    simpa [Nat.mul_comm, Nat.mul_add_div hNpos, Nat.div_eq_of_lt hb,
      Nat.div_eq_of_lt hd] using h1
  · have h2 := congrArg (fun x => x % N) h
    simpa [Nat.mul_add_mod_of_lt hb, Nat.mul_add_mod_of_lt hd] using h2

/-- Claim C7. In a Multiplayer session with N players that stays `playing`,
after N consecutive successful submissions `currentPlayerIndex` returns to
its original value and `currentRow` grows by exactly 1. -/
theorem multiplayer_round_cycle (wordList : List (List Char))
    (g g' : ServerGameState) (inputs : List (List Char × Option String))
    (hseq : SubmitSeq wordList g inputs g')
    (hm : g.mode = .multiplayer)
    (hidx : g.currentPlayerIndex < g.players.length)
    (hN : inputs.length = g.players.length) :
    g'.currentPlayerIndex = g.currentPlayerIndex ∧
      g'.currentRow = g.currentRow + 1 := by
  obtain ⟨hmf, hlenf, hidxf, hrowf⟩ := submitSeq_progress wordList hseq hm hidx
  rw [hN] at hrowf
  have hrw : g.currentRow * g.players.length + g.currentPlayerIndex +
      g.players.length =
      (g.currentRow + 1) * g.players.length + g.currentPlayerIndex := by
    rw [Nat.succ_mul]
    omega
  rw [hrw] at hrowf
  have := mul_add_inj g.players.length g'.currentRow g'.currentPlayerIndex
    (g.currentRow + 1) g.currentPlayerIndex hidxf hidx hrowf
  exact ⟨this.2, this.1⟩

/-- A fresh 2-player session for the C7 witness. -/
def c7G0 : ServerGameState :=
  ⟨"g", ['A','B'], .multiplayer,
    [⟨"p0", "P0", [], false⟩, ⟨"p1", "P1", [], false⟩],
    0, 0, .playing, none, 6, 2, none⟩

/-- The scored wrong guess `"CD"` against answer `"AB"`. -/
def c7Sc : Guess := [⟨'C', .miss⟩, ⟨'D', .miss⟩]

/-- The session after player 0's wrong guess. -/
def c7G1 : ServerGameState :=
  ⟨"g", ['A','B'], .multiplayer,
    [⟨"p0", "P0", [c7Sc], false⟩, ⟨"p1", "P1", [], false⟩],
    1, 0, .playing, none, 6, 2, none⟩

/-- The session after both players' wrong guesses: one full round. -/
def c7G2 : ServerGameState :=
  ⟨"g", ['A','B'], .multiplayer,
    [⟨"p0", "P0", [c7Sc], false⟩, ⟨"p1", "P1", [c7Sc], false⟩],
    0, 1, .playing, none, 6, 2, none⟩

/-- Witness for C7: two submissions in the 2-player session bring
`currentPlayerIndex` back to 0 and increment `currentRow` by one. -/
theorem multiplayer_round_cycle_witness :
    c7G2.currentPlayerIndex = c7G0.currentPlayerIndex ∧
      c7G2.currentRow = c7G0.currentRow + 1 :=
  multiplayer_round_cycle [['A','B'], ['C','D']] c7G0 c7G2
    [(['C','D'], none), (['C','D'], none)]
    (SubmitSeq.cons
      (show submitGuessGame [['A','B'], ['C','D']] c7G0 ['C','D'] none =
          .ok (c7G1, c7Sc) by decide)
      (by decide)
      (SubmitSeq.cons
        (show submitGuessGame [['A','B'], ['C','D']] c7G1 ['C','D'] none =
            .ok (c7G2, c7Sc) by decide)
        (by decide)
        (SubmitSeq.nil c7G2)))
    (by decide) (by decide) (by decide)
